import Mathlib

/-!
Verification of the simplecache Traefik plugin (`plugin-simpleforcecache`).

The middleware layer is embedded from `cache.go`.  The disk store
(`file.go`: key sharder, record codec, Store.Get/Set, vacuum loop) is not
part of the provided sources, so its definitions are modelled from the
specification, as marked on each definition.
-/

namespace SimpleCache

/-! ## Record codec (file.go, modelled from the spec) -/

/-- Modelled from the spec: little-endian byte serialisation of a
fixed-width unsigned integer, least significant byte first, `w` bytes
wide.  Used by the record codec of `file.go` (not under `src/`). -/
def toLEBytes : Nat → Nat → List Nat
  | 0, _ => []
  | w + 1, n => n % 256 :: toLEBytes w (n / 256)

/-- Modelled from the spec: read back a little-endian byte sequence as a
natural number. -/
def fromLEBytes : List Nat → Nat
  | [] => 0
  | b :: bs => b + 256 * fromLEBytes bs

/-- Modelled from the spec: the 8-byte little-endian expiry prefix of an
on-disk record (`file.go`, not under `src/`). -/
def toLE64 (n : Nat) : List Nat := toLEBytes 8 n

/-- Error taxonomy of the record codec, from the spec's §4.3/§7. -/
inductive CodecError where
  | corruptRecord
  deriving DecidableEq, Repr

/-- Modelled from the spec: `encode(expiresAt, payload)` is 8 raw bytes of
little-endian unsigned expiry timestamp followed immediately by the raw
payload bytes, with no length prefix (`file.go`, not under `src/`). -/
def encodeRecord (expiresAt : Nat) (payload : List Nat) : List Nat :=
  toLE64 expiresAt ++ payload

/-- Modelled from the spec: `decode(bytes)` fails with `CorruptRecord`
when fewer than 8 bytes are present, else splits the 8-byte little-endian
expiry prefix from the opaque payload (`file.go`, not under `src/`). -/
def decodeRecord (bs : List Nat) : Except CodecError (Nat × List Nat) :=
  if bs.length < 8 then .error .corruptRecord
  else .ok (fromLEBytes (bs.take 8), bs.drop 8)

theorem length_toLEBytes (w n : Nat) : (toLEBytes w n).length = w := by
  induction w generalizing n with
  | zero => simp [toLEBytes]
  | succ w ih => simp [toLEBytes, ih]

theorem fromLEBytes_toLEBytes (w n : Nat) :
    fromLEBytes (toLEBytes w n) = n % 256 ^ w := by
  induction w generalizing n with
  | zero => simp [toLEBytes, fromLEBytes, Nat.mod_one]
  | succ w ih =>
    have h256 : (0 : Nat) < 256 := by norm_num
    calc fromLEBytes (toLEBytes (w + 1) n)
        = n % 256 + 256 * (n / 256 % 256 ^ w) := by
          simp [toLEBytes, fromLEBytes, ih]
      _ = n % (256 * 256 ^ w) := (Nat.mod_mul).symm
      _ = n % 256 ^ (w + 1) := by rw [pow_succ, mul_comm]

theorem take_encodeRecord (e : Nat) (p : List Nat) :
    (encodeRecord e p).take 8 = toLE64 e := by
  have h : (toLE64 e).length = 8 := length_toLEBytes 8 e
  simp [encodeRecord, List.take_append_eq_append_take, h]

theorem drop_encodeRecord (e : Nat) (p : List Nat) :
    (encodeRecord e p).drop 8 = p := by
  have h : (toLE64 e).length = 8 := length_toLEBytes 8 e
  simp [encodeRecord, List.drop_append_eq_append_drop, h]

theorem length_encodeRecord (e : Nat) (p : List Nat) :
    (encodeRecord e p).length = 8 + p.length := by
  simp [encodeRecord, toLE64, length_toLEBytes]

theorem decodeRecord_encodeRecord (e : Nat) (p : List Nat) (he : e < 2 ^ 64) :
    decodeRecord (encodeRecord e p) = .ok (e, p) := by
  have hlen : ¬ (encodeRecord e p).length < 8 := by
    simp [length_encodeRecord]
  have h256 : (256 : Nat) ^ 8 = 2 ^ 64 := by norm_num
  rw [decodeRecord, if_neg hlen, take_encodeRecord, drop_encodeRecord,
    toLE64, fromLEBytes_toLEBytes, h256, Nat.mod_eq_of_lt he]

/-! ## Key sharder (file.go, modelled from the spec)

Keys and paths are byte sequences (`List Nat`, each element a byte
value); `47` is the byte of the path separator. -/

/-- Modelled from the spec: one bit-step of the CRC-32 (IEEE) checksum
used to fan keys out across the shard directories. -/
def crc32Step (crc : Nat) : Nat :=
  if crc % 2 = 1 then (crc / 2) ^^^ 0xEDB88320 else crc / 2

/-- Modelled from the spec: fold one key byte into the CRC-32 state. -/
def crc32Byte (crc b : Nat) : Nat :=
  (crc32Step ∘ crc32Step ∘ crc32Step ∘ crc32Step ∘
   crc32Step ∘ crc32Step ∘ crc32Step ∘ crc32Step) (crc ^^^ b % 256)

/-- Modelled from the spec: the 32-bit checksum of the raw key from which
the shard directories `h1..h4` derive (`file.go`, not under `src/`). -/
def crc32 (bs : List Nat) : Nat :=
  (bs.foldl crc32Byte 0xFFFFFFFF) ^^^ 0xFFFFFFFF

/-- Modelled from the spec: lower-case hexadecimal digit, as a byte. -/
def hexDigit (n : Nat) : Nat :=
  if n < 10 then 48 + n else 87 + n

/-- Modelled from the spec: two-digit lower-case hex rendering of one
byte, used for the shard directory names. -/
def byteHex (b : Nat) : List Nat :=
  [hexDigit (b / 16 % 16), hexDigit (b % 16)]

/-- Modelled from the spec: bytes that the key sanitizer keeps verbatim
(ASCII alphanumerics and `-`, `.`, `_`); everything else — in particular
the path separator, control characters and the escape byte `%` itself —
is escaped, not rejected. -/
def isSafeByte (b : Nat) : Bool :=
  (48 ≤ b && b ≤ 57) || (65 ≤ b && b ≤ 90) || (97 ≤ b && b ≤ 122) ||
    b == 45 || b == 46 || b == 95

/-- Modelled from the spec: escape one key byte for use in a filename;
unsafe bytes become `%` (byte 37) followed by two hex digits. -/
def escapeByte (b : Nat) : List Nat :=
  if isSafeByte b then [b] else [37, hexDigit (b / 16 % 16), hexDigit (b % 16)]

/-- Modelled from the spec: the sanitized key — the original key with
filesystem-unsafe characters escaped, preserving key distinctness
(`file.go`, not under `src/`). -/
def sanitizeKey (key : List Nat) : List Nat :=
  key.flatMap escapeByte

/-- Modelled from the spec: the four fixed-width shard directory segments
`h1/h2/h3/h4`, successive byte slices of the 32-bit checksum of the key,
each rendered as two hex digits. -/
def hashSegs (key : List Nat) : List Nat :=
  let h := crc32 key
  byteHex (h % 256) ++ 47 :: byteHex (h / 256 % 256) ++
    47 :: byteHex (h / 256 ^ 2 % 256) ++ 47 :: byteHex (h / 256 ^ 3 % 256)

/-- Modelled from the spec: `shardPath(root, key)` =
`root / h1 / h2 / h3 / h4 / sanitized-key` (`file.go`, not under `src/`). -/
def shardPath (root key : List Nat) : List Nat :=
  root ++ 47 :: hashSegs key ++ 47 :: sanitizeKey key

/-- Modelled from the spec: hex digit reader, inverse of `hexDigit`. -/
def unhexDigit (c : Nat) : Nat :=
  if c < 58 then c - 48 else c - 87

/-- Modelled from the spec: the unescaping scan inverse to `sanitizeKey`
(exists because escaping is reversible, witnessing that sanitization
preserves key distinctness). -/
def unescape : List Nat → List Nat
  | [] => []
  | c :: rest =>
    if c = 37 then
      match rest with
      | d1 :: d2 :: rest2 => (unhexDigit d1 * 16 + unhexDigit d2) :: unescape rest2
      | [d1] => [unhexDigit d1 * 16]
      | [] => []
    else c :: unescape rest

theorem unhexDigit_hexDigit (n : Nat) (h : n < 16) :
    unhexDigit (hexDigit n) = n := by
  by_cases h10 : n < 10
  · simp [hexDigit, unhexDigit, h10]
    omega
  · simp only [hexDigit, unhexDigit, if_neg h10]
    have : ¬ 87 + n < 58 := by omega
    simp [this]

theorem isSafeByte_ne_37 (b : Nat) (h : isSafeByte b = true) : b ≠ 37 := by
  simp [isSafeByte] at h
  omega

theorem unescape_cons_ne (c : Nat) (rest : List Nat) (h : c ≠ 37) :
    unescape (c :: rest) = c :: unescape rest := by
  match rest with
  | [] => simp [unescape, h]
  | [d1] => simp [unescape, h]
  | d1 :: d2 :: r => simp [unescape, h]

theorem unescape_escapeByte (b : Nat) (hb : b < 256) (rest : List Nat) :
    unescape (escapeByte b ++ rest) = b :: unescape rest := by
  by_cases hs : isSafeByte b
  · have hne : b ≠ 37 := isSafeByte_ne_37 b hs
    rw [escapeByte, if_pos hs, List.singleton_append, unescape_cons_ne b rest hne]
  · have h1 : b / 16 % 16 < 16 := Nat.mod_lt _ (by norm_num)
    have h2 : b % 16 < 16 := Nat.mod_lt _ (by norm_num)
    rw [escapeByte, if_neg hs]
    simp only [List.cons_append, List.nil_append, unescape,
      unhexDigit_hexDigit _ h1, unhexDigit_hexDigit _ h2]
    rw [if_pos trivial, show ([] : List Nat).append rest = rest from rfl]
    congr 1
    have hdiv : b / 16 < 16 := by omega
    rw [Nat.mod_eq_of_lt hdiv]
    omega

theorem unescape_sanitizeKey (key : List Nat) (hk : ∀ b ∈ key, b < 256) :
    unescape (sanitizeKey key) = key := by
  induction key with
  | nil => simp [sanitizeKey, unescape]
  | cons b rest ih =>
    have hb : b < 256 := hk b (by simp)
    have hrest : ∀ c ∈ rest, c < 256 := fun c hc => hk c (by simp [hc])
    have ih' := ih hrest
    simp only [sanitizeKey, List.flatMap_cons] at *
    rw [unescape_escapeByte b hb, ih']

theorem sanitizeKey_injOn (k1 k2 : List Nat)
    (h1 : ∀ b ∈ k1, b < 256) (h2 : ∀ b ∈ k2, b < 256)
    (heq : sanitizeKey k1 = sanitizeKey k2) : k1 = k2 := by
  have := congrArg unescape heq
  rwa [unescape_sanitizeKey k1 h1, unescape_sanitizeKey k2 h2] at this

theorem length_byteHex (b : Nat) : (byteHex b).length = 2 := by
  simp [byteHex]

theorem length_hashSegs (key : List Nat) : (hashSegs key).length = 11 := by
  simp [hashSegs, length_byteHex]

theorem shardPath_inj (root k1 k2 : List Nat)
    (h1 : ∀ b ∈ k1, b < 256) (h2 : ∀ b ∈ k2, b < 256)
    (heq : shardPath root k1 = shardPath root k2) : k1 = k2 := by
  rw [shardPath, shardPath] at heq
  have heq1 : root ++ 47 :: (hashSegs k1 ++ 47 :: sanitizeKey k1)
      = root ++ 47 :: (hashSegs k2 ++ 47 :: sanitizeKey k2) := by
    simpa [List.append_assoc] using heq
  have heq2 := List.append_cancel_left heq1
  have heq3 : hashSegs k1 ++ 47 :: sanitizeKey k1
      = hashSegs k2 ++ 47 :: sanitizeKey k2 := List.cons_injective heq2
  have hlen : (hashSegs k1).length = (hashSegs k2).length := by
    rw [length_hashSegs, length_hashSegs]
  have hsane : sanitizeKey k1 = sanitizeKey k2 :=
    List.cons_injective (List.append_inj heq3 hlen).2
  exact sanitizeKey_injOn k1 k2 h1 h2 hsane

/-! ## Store (file.go, modelled from the spec) -/

/-- Modelled from the spec: the disk store's visible state — the cache
root and the filesystem, as a map from paths to file contents
(`file.go` is not under `src/`). -/
structure Store where
  root : List Nat
  fs : List Nat → Option (List Nat)

/-- Modelled from the spec: `Store.Get(key)` computes the shard path,
reads the file, and collapses file-absent, decode-failure and
`expiresAt <= now` to "not found"; on success it returns the payload
bytes unmodified.  It performs no write, so it returns the store
unchanged (`file.go`, not under `src/`). -/
def storeGet (st : Store) (now : Nat) (key : List Nat) :
    Option (List Nat) × Store :=
  match st.fs (shardPath st.root key) with
  | none => (none, st)
  | some bs =>
    match decodeRecord bs with
    | .error _ => (none, st)
    | .ok (exp, payload) => if exp ≤ now then (none, st) else (some payload, st)

/-- Modelled from the spec: `Store.Set(key, payload, ttl)` computes
`expiresAt = now + ttl`, encodes the record and fully replaces any
existing file at the shard path (`file.go`, not under `src/`). -/
def storeSet (st : Store) (now : Nat) (key payload : List Nat) (ttl : Nat) :
    Store :=
  { st with
    fs := fun p =>
      if p = shardPath st.root key then some (encodeRecord (now + ttl) payload)
      else st.fs p }

/-! ## Vacuum loop (file.go, modelled from the spec) -/

/-- Modelled from the spec: a file is a deletion candidate for the
vacuum run when its expiry prefix fails to decode or its decoded expiry
satisfies `expiresAt <= now` (`file.go`, not under `src/`). -/
def shouldDelete (now : Nat) (bs : List Nat) : Bool :=
  match decodeRecord bs with
  | .error _ => true
  | .ok (exp, _) => decide (exp ≤ now)

/-- Modelled from the spec: one vacuum run over the walked files (path,
contents pairs).  Each file is handled independently: a deletion
candidate is removed unless its delete fails, in which case the run logs
and continues; no per-file failure aborts the walk (`file.go`, not under
`src/`). -/
def vacuumRun (now : Nat) (deleteFails : List Nat → Bool) :
    List (List Nat × List Nat) → List (List Nat × List Nat)
  | [] => []
  | (p, bs) :: rest =>
    if shouldDelete now bs then
      if deleteFails p then (p, bs) :: vacuumRun now deleteFails rest
      else vacuumRun now deleteFails rest
    else (p, bs) :: vacuumRun now deleteFails rest

theorem vacuumRun_eq_filter (now : Nat) (df : List Nat → Bool)
    (files : List (List Nat × List Nat)) :
    vacuumRun now df files
      = files.filter (fun f => !(shouldDelete now f.2 && !(df f.1))) := by
  induction files with
  | nil => simp [vacuumRun]
  | cons f rest ih =>
    obtain ⟨p, bs⟩ := f
    by_cases hs : shouldDelete now bs
    · by_cases hd : df p
      · simp [vacuumRun, hs, hd, List.filter, ih]
      · simp [vacuumRun, hs, hd, List.filter, ih]
    · simp [vacuumRun, hs, List.filter, ih]

theorem shouldDelete_false_iff (now : Nat) (bs : List Nat) :
    shouldDelete now bs = false
      ↔ ∃ e p, decodeRecord bs = .ok (e, p) ∧ now < e := by
  unfold shouldDelete
  cases hdec : decodeRecord bs with
  | error e => simp
  | ok v =>
    obtain ⟨e, p⟩ := v
    constructor
    · intro h
      refine ⟨e, p, rfl, ?_⟩
      simpa using h
    · rintro ⟨e', p', heq, hlt⟩
      have he : e = e' ∧ p = p' := by simpa using heq
      simp only [decide_eq_false_iff_not]
      omega

/-! ## Claims about the store layer (spec-modelled) -/

/-- C1: for every key, payload and positive ttl (whose expiry fits the
8-byte timestamp), `Set(k, P, ttl)` followed immediately by `Get(k)`
returns `(P, true)` with the payload bytes unmodified, and the store
after the Get is the store the Set produced. -/
theorem spec_C1 (st : Store) (now : Nat) (key payload : List Nat) (ttl : Nat)
    (httl : 0 < ttl) (hfit : now + ttl < 2 ^ 64) :
    storeGet (storeSet st now key payload ttl) now key
      = (some payload, storeSet st now key payload ttl) := by
  have hdec := decodeRecord_encodeRecord (now + ttl) payload hfit
  have hnot : ¬ (now + ttl ≤ now) := by omega
  simp [storeGet, storeSet, hdec, hnot]

/-- Witness for C1 at a concrete store, key, payload and ttl. -/
theorem spec_C1_witness :
    0 < 5 ∧ (0 : Nat) + 5 < 2 ^ 64
      ∧ storeGet (storeSet ⟨[], fun _ => none⟩ 0 [65] [1, 2, 3] 5) 0 [65]
        = (some [1, 2, 3], storeSet ⟨[], fun _ => none⟩ 0 [65] [1, 2, 3] 5) :=
  ⟨by norm_num, by norm_num,
    spec_C1 ⟨[], fun _ => none⟩ 0 [65] [1, 2, 3] 5 (by norm_num) (by norm_num)⟩

/-- C3: a record whose `expiresAt <= now` at read time is never
returned — `Get` reports not found — and `Get` has no side effect: the
store is unchanged and in particular the expired file is not deleted. -/
theorem spec_C3 (st : Store) (now : Nat) (key bs p : List Nat) (exp : Nat)
    (hfile : st.fs (shardPath st.root key) = some bs)
    (hdec : decodeRecord bs = .ok (exp, p))
    (hexp : exp ≤ now) :
    storeGet st now key = (none, st)
      ∧ (storeGet st now key).2.fs (shardPath st.root key) = some bs := by
  have h : storeGet st now key = (none, st) := by
    simp [storeGet, hfile, hdec, hexp]
  exact ⟨h, by rw [h]; exact hfile⟩

/-- Witness for C3 on a store holding an expired record everywhere. -/
theorem spec_C3_witness :
    storeGet ⟨[], fun _ => some (encodeRecord 3 [9])⟩ 5 [65]
        = (none, ⟨[], fun _ => some (encodeRecord 3 [9])⟩)
      ∧ (storeGet ⟨[], fun _ => some (encodeRecord 3 [9])⟩ 5 [65]).2.fs
          (shardPath [] [65]) = some (encodeRecord 3 [9]) :=
  spec_C3 ⟨[], fun _ => some (encodeRecord 3 [9])⟩ 5 [65]
    (encodeRecord 3 [9]) [9] 3 rfl (by rfl) (by norm_num)

/-- C5: the on-disk record format is exactly the 8-byte little-endian
unsigned expiry timestamp followed by the raw payload with no length
prefix; decoding fewer than 8 bytes fails with `CorruptRecord`, and
decode inverts encode. -/
theorem spec_C5 (e : Nat) (p bs : List Nat) :
    (encodeRecord e p).take 8 = toLE64 e
      ∧ (toLE64 e).length = 8
      ∧ (encodeRecord e p).drop 8 = p
      ∧ (encodeRecord e p).length = 8 + p.length
      ∧ fromLEBytes (toLE64 e) = e % 2 ^ 64
      ∧ (bs.length < 8 → decodeRecord bs = .error .corruptRecord)
      ∧ (e < 2 ^ 64 → decodeRecord (encodeRecord e p) = .ok (e, p)) := by
  refine ⟨take_encodeRecord e p, length_toLEBytes 8 e, drop_encodeRecord e p,
    length_encodeRecord e p, ?_, ?_, fun he => decodeRecord_encodeRecord e p he⟩
  · rw [toLE64, fromLEBytes_toLEBytes]
    norm_num
  · intro h
    simp [decodeRecord, h]

/-- Witness for C5 at a concrete timestamp, payload and short input. -/
theorem spec_C5_witness :
    ([0, 1, 2] : List Nat).length < 8 ∧ (300 : Nat) < 2 ^ 64
      ∧ decodeRecord [0, 1, 2] = .error .corruptRecord
      ∧ decodeRecord (encodeRecord 300 [1, 2]) = .ok (300, [1, 2]) :=
  ⟨by norm_num, by norm_num,
    (spec_C5 300 [1, 2] [0, 1, 2]).2.2.2.2.2.1 (by norm_num),
    (spec_C5 300 [1, 2] [0, 1, 2]).2.2.2.2.2.2 (by norm_num)⟩

/-- C6: shard-path injectivity — distinct byte-string keys (including
keys holding path separators or other unsafe bytes) always map to
distinct shard paths; sanitization escapes rather than rejects, keeps
the path separator out of the sanitized key, and preserves key
distinctness. -/
theorem spec_C6 (root k1 k2 : List Nat)
    (h1 : ∀ b ∈ k1, b < 256) (h2 : ∀ b ∈ k2, b < 256) (hne : k1 ≠ k2) :
    shardPath root k1 ≠ shardPath root k2
      ∧ sanitizeKey k1 ≠ sanitizeKey k2
      ∧ ∀ c ∈ sanitizeKey k1, c ≠ 47 := by
  refine ⟨fun h => hne (shardPath_inj root k1 k2 h1 h2 h),
    fun h => hne (sanitizeKey_injOn k1 k2 h1 h2 h), ?_⟩
  intro c hc
  rw [sanitizeKey, List.mem_flatMap] at hc
  obtain ⟨b, _, hcb⟩ := hc
  by_cases hs : isSafeByte b
  · rw [escapeByte, if_pos hs] at hcb
    have hb : c = b := by simpa using hcb
    subst hb
    intro h47
    rw [h47] at hs
    simp [isSafeByte] at hs
  · rw [escapeByte, if_neg hs] at hcb
    have : c = 37 ∨ c = hexDigit (b / 16 % 16) ∨ c = hexDigit (b % 16) := by
      simpa using hcb
    rcases this with h | h | h
    · omega
    all_goals
      rw [h, hexDigit]
      split <;> omega

/-- Witness for C6 at the separator-laden key `[47]` against `[0]`. -/
theorem spec_C6_witness :
    (∀ b ∈ ([47] : List Nat), b < 256) ∧ (∀ b ∈ ([0] : List Nat), b < 256)
      ∧ ([47] : List Nat) ≠ [0]
      ∧ (shardPath [114] [47] ≠ shardPath [114] [0]
          ∧ sanitizeKey [47] ≠ sanitizeKey [0]
          ∧ ∀ c ∈ sanitizeKey [47], c ≠ 47) :=
  ⟨by decide, by decide, by decide,
    spec_C6 [114] [47] [0] (by decide) (by decide) (by decide)⟩

/-- C7: one vacuum run removes exactly the walked files that are
deletion candidates (`expiresAt <= now` or undecodable prefix) whose
delete did not fail; candidacy is exactly the complement of
decodes-and-unexpired; a short (undecodable) file is a candidate; and no
per-file failure aborts the walk — every file is handled independently,
as the filter characterization states. -/
theorem spec_C7 (now : Nat) (df : List Nat → Bool)
    (files : List (List Nat × List Nat)) :
    vacuumRun now df files
        = files.filter (fun f => !(shouldDelete now f.2 && !(df f.1)))
      ∧ vacuumRun now (fun _ => false) files
        = files.filter (fun f => !(shouldDelete now f.2))
      ∧ (∀ b, shouldDelete now b = false
          ↔ ∃ e q, decodeRecord b = .ok (e, q) ∧ now < e)
      ∧ (∀ b : List Nat, b.length < 8 → shouldDelete now b = true) := by
  refine ⟨vacuumRun_eq_filter now df files, ?_,
    fun b => shouldDelete_false_iff now b, ?_⟩
  · rw [vacuumRun_eq_filter]
    simp
  · intro b h
    simp [shouldDelete, decodeRecord, h]

/-- Witness for C7 on a three-file tree: expired, live, corrupt. -/
theorem spec_C7_witness :
    vacuumRun 5 (fun _ => false)
        [([1], encodeRecord 3 [9]), ([2], encodeRecord 9 [7]), ([3], [1, 2])]
      = [([2], encodeRecord 9 [7])] := by
  rw [(spec_C7 5 (fun _ => false)
    [([1], encodeRecord 3 [9]), ([2], encodeRecord 9 [7]), ([3], [1, 2])]).2.1]
  rfl

/-! ## Middleware layer, embedded from `cache.go`

HTTP header maps (`map[string][]string`) are association lists; `hSet`
and `hAdd` mirror `Header.Set` and `Header.Add`. -/

/-- Go `map[string][]string` as an association list. -/
abbrev HeaderMap := List (String × List String)

/-- Lookup of an HTTP header map key (first matching entry). -/
def hFind : HeaderMap → String → Option (List String)
  | [], _ => none
  | (k', vs) :: rest, k => if k' == k then some vs else hFind rest k

/-- Lookup in the style of `Header.Values` defaulting to the empty list. -/
def hGet (hs : HeaderMap) (k : String) : List String :=
  (hFind hs k).getD []

/-- Model of `Header.Set`: replace the values stored under a key. -/
def hSet (hs : HeaderMap) (k : String) (vs : List String) : HeaderMap :=
  (k, vs) :: hs.filter (fun p => p.1 != k)

/-- Model of `Header.Add`: append one value under a key. -/
def hAdd (hs : HeaderMap) (k : String) (v : String) : HeaderMap :=
  hSet hs k (hGet hs k ++ [v])

/-- Add each value of a list under one key, in order (the inner loop of
the cache-hit replay in `ServeHTTP`, cache.go lines 103-107). -/
def addValues (hs : HeaderMap) (k : String) : List String → HeaderMap
  | [] => hs
  | v :: vs => addValues (hAdd hs k v) k vs

/-- Add every entry of a header map (the outer loop of the cache-hit
replay in `ServeHTTP`). -/
def addAll (hs : HeaderMap) : HeaderMap → HeaderMap
  | [] => hs
  | (k, vs) :: rest => addAll (addValues hs k vs) rest

/-- Apply a sequence of `Header.Set` operations, modelling what the next
handler does to `w.Header()` before writing the response. -/
def setAll (hs : HeaderMap) : List (String × List String) → HeaderMap
  | [] => hs
  | (k, vs) :: rest => setAll (hSet hs k vs) rest

/-- Struct `Config` from cache.go (field names lower-cased for Lean). -/
structure Config where
  path : String
  maxExpiry : Int
  cleanup : Int
  addStatusHeader : Bool
  force : Bool
  cacheHeaders : List String
  cachePathPrefixes : List String

/-- Constant `cacheHeader` from cache.go. -/
def cacheHeader : String := "Cache-Status"

/-- Constant `cacheHitStatus` from cache.go. -/
def cacheHitStatus : String := "hit"

/-- Constant `cacheMissStatus` from cache.go. -/
def cacheMissStatus : String := "miss"

/-- Constant `cacheErrorStatus` from cache.go. -/
def cacheErrorStatus : String := "error"

/-- Struct `cacheData` from cache.go: the JSON-serialized response. -/
structure CacheData where
  status : Nat
  headers : HeaderMap
  body : List Nat

/-- The parts of an `http.Request` that `ServeHTTP` and `cacheKey`
read.  `headerGet` models `r.Header.Get` applied to a canonical key;
`urlQuery` is carried to state that the key ignores it. -/
structure Request where
  method : String
  host : String
  urlPath : String
  urlQuery : String
  headerGet : String → String

/-- Bytes Go's `textproto` treats as valid header-field bytes (token
characters); a key holding anything else is returned uncanonicalized. -/
def isTokenByte (c : Char) : Bool :=
  c.isAlphanum ||
    [33, 35, 36, 37, 38, 39, 42, 43, 45, 46, 94, 95, 96, 124, 126].contains c.toNat

/-- The case-mapping walk of `textproto.CanonicalMIMEHeaderKey`: upper
case at the start and after each hyphen, lower case elsewhere. -/
def canonChars (upper : Bool) : List Char → List Char
  | [] => []
  | c :: rest =>
    let c2 := if upper && c.isLower then c.toUpper
      else if !upper && c.isUpper then c.toLower else c
    c2 :: canonChars (c2 == '-') rest

/-- Function `http.CanonicalHeaderKey` from net/http (via textproto): canonical
case-mapping, or the key unchanged if it holds an invalid byte. -/
def canonicalHeaderKey (s : String) : String :=
  if s.data.all isTokenByte then String.mk (canonChars true s.data) else s

/-- One iteration of the header loop of `cacheKey` (cache.go lines
191-202): canonicalize the configured header name and append
`|Name:value` to the builder when the value is non-empty. -/
def cacheKeyStep (r : Request) (acc headerName : String) : String :=
  let canonicalName := canonicalHeaderKey headerName
  let headerValue := r.headerGet canonicalName
  if headerValue == "" then acc
  else acc ++ "|" ++ canonicalName ++ ":" ++ headerValue

/-- Function `cacheKey` from cache.go lines 183-205: method, host and URL path,
then each configured header (canonicalized) appended as
`|Name:value` when its value is non-empty. -/
def cacheKey (r : Request) (cacheHeaders : List String) : String :=
  cacheHeaders.foldl (cacheKeyStep r) (r.method ++ r.host ++ r.urlPath)

/-- Function of cache.go lines 167-181, `matchesPathPrefix` (named in the plural
here): true when no prefixes are configured, else a case-insensitive
prefix test. -/
def matchesPathPrefixes (cfg : Config) (path : String) : Bool :=
  if cfg.cachePathPrefixes.length == 0 then true
  else
    let lowerPath := path.map Char.toLower
    cfg.cachePathPrefixes.any fun pre =>
      lowerPath.startsWith (pre.map Char.toLower)

/-- Function `cacheable` from cache.go lines 159-165: only status 200 is
cacheable, with expiry `time.Duration(MaxExpiry) * time.Second`
(nanoseconds). -/
def cacheable (cfg : Config) (status : Nat) : Option Int :=
  if status ≠ 200 then none else some (cfg.maxExpiry * 1000000000)

/-- What the next handler does when invoked: the `Header.Set` calls it
performs, the status it passes to `WriteHeader` (0 when it never calls
it, as in Go's zero-valued `responseWriter.status`), and the bytes it
writes. -/
structure NextBehavior where
  setHeaders : List (String × List String)
  status : Nat
  body : List Nat

/-- The response observable by the client: final header map, status
written, body bytes. -/
structure ResponseState where
  headers : HeaderMap
  status : Nat
  body : List Nat
  deriving DecidableEq

/-- Everything `ServeHTTP` does on one request: the client-visible
response, whether `next` ran, the attempted cache write (key, marshalled
bytes, expiry) if any, and whether a failing `Set` was logged. -/
structure ServeResult where
  response : ResponseState
  nextInvoked : Bool
  setAttempt : Option (String × List Nat × Int)
  loggedSetError : Bool
  deriving DecidableEq

/-- The header filter of `ServeHTTP` (cache.go lines 132-141): drop the
hop-by-hop keys `Transfer-Encoding` and `Connection`, keep the rest. -/
def filterHoHeaders (hs : HeaderMap) : HeaderMap :=
  hs.filter fun p => !(p.1 == "Transfer-Encoding" || p.1 == "Connection")

/-- The fall-through (cache miss / cache error) path of `ServeHTTP`
(cache.go lines 120-157): set `Cache-Status`, run `next` through the
recording writer, and when the status is cacheable marshal the filtered
response and attempt the store write; a failing write is only logged. -/
def fallThrough (cfg : Config) (key : String) (cs : String)
    (jsonMarshal : CacheData → List Nat) (next : NextBehavior)
    (setErr : Bool) : ServeResult :=
  let hs0 : HeaderMap :=
    if cfg.addStatusHeader then hSet [] cacheHeader [cs] else []
  let respHeaders := setAll hs0 next.setHeaders
  let resp : ResponseState :=
    { headers := respHeaders, status := next.status, body := next.body }
  match cacheable cfg next.status with
  | none =>
    { response := resp, nextInvoked := true, setAttempt := none,
      loggedSetError := false }
  | some expiry =>
    let data : CacheData :=
      { status := next.status, headers := filterHoHeaders respHeaders,
        body := next.body }
    { response := resp, nextInvoked := true,
      setAttempt := some (key, jsonMarshal data, expiry),
      loggedSetError := setErr }

/-- Method `ServeHTTP` from cache.go lines 84-157.  `fetched` is the store's
`Get` result (`none` on any store miss/error); `jsonUnmarshal` and
`jsonMarshal` abstract encoding/json; `next` the wrapped handler;
`setErr` whether the store's `Set` would fail. -/
def serveHTTP (cfg : Config) (r : Request) (fetched : Option (List Nat))
    (jsonUnmarshal : List Nat → Option CacheData)
    (jsonMarshal : CacheData → List Nat)
    (next : NextBehavior) (setErr : Bool) : ServeResult :=
  if !matchesPathPrefixes cfg r.urlPath then
    { response := { headers := setAll [] next.setHeaders,
                    status := next.status, body := next.body },
      nextInvoked := true, setAttempt := none, loggedSetError := false }
  else
    let key := cacheKey r cfg.cacheHeaders
    match fetched with
    | some b =>
      match jsonUnmarshal b with
      | some data =>
        let hs := addAll [] data.headers
        let hs2 := if cfg.addStatusHeader then hSet hs cacheHeader [cacheHitStatus]
          else hs
        { response := { headers := hs2, status := data.status, body := data.body },
          nextInvoked := false, setAttempt := none, loggedSetError := false }
      | none => fallThrough cfg key cacheErrorStatus jsonMarshal next setErr
    | none => fallThrough cfg key cacheMissStatus jsonMarshal next setErr

/-! ## Header-map lemmas -/

theorem hFind_hSet_self (hs : HeaderMap) (k : String) (vs : List String) :
    hFind (hSet hs k vs) k = some vs := by
  simp [hSet, hFind]

theorem hFind_filterKey (hs : HeaderMap) (k' k : String) (h : k' ≠ k) :
    hFind (hs.filter (fun p => p.1 != k')) k = hFind hs k := by
  induction hs with
  | nil => simp
  | cons p rest ih =>
    obtain ⟨a, vs⟩ := p
    by_cases hak : a = k'
    · subst hak
      have : (a == k) = false := by simp [h]
      simp [hFind, this, ih]
    · have : (a != k') = true := by simp [hak]
      simp only [List.filter_cons, this, if_pos]
      rw [hFind, hFind, ih]

theorem hFind_hSet_ne (hs : HeaderMap) (k' k : String) (vs : List String)
    (h : k' ≠ k) : hFind (hSet hs k' vs) k = hFind hs k := by
  rw [hSet, hFind]
  have : (k' == k) = false := by simp [h]
  rw [this]
  simp only [Bool.false_eq_true, if_false]
  exact hFind_filterKey hs k' k h

theorem hFind_hAdd_ne (hs : HeaderMap) (k' k : String) (v : String)
    (h : k' ≠ k) : hFind (hAdd hs k' v) k = hFind hs k :=
  hFind_hSet_ne hs k' k _ h

theorem hFind_addValues_ne (k' k : String) (h : k' ≠ k) (vs : List String)
    (hs : HeaderMap) : hFind (addValues hs k' vs) k = hFind hs k := by
  induction vs generalizing hs with
  | nil => simp [addValues]
  | cons v vs ih => rw [addValues, ih, hFind_hAdd_ne hs k' k v h]

theorem hFind_addAll_notkey (k : String) (entries : List (String × List String))
    (hk : ∀ p ∈ entries, p.1 ≠ k) (hs : HeaderMap) :
    hFind (addAll hs entries) k = hFind hs k := by
  induction entries generalizing hs with
  | nil => simp [addAll]
  | cons p rest ih =>
    obtain ⟨a, vs⟩ := p
    have ha : a ≠ k := hk (a, vs) (by simp)
    have hrest : ∀ p ∈ rest, p.1 ≠ k := fun p hp => hk p (by simp [hp])
    rw [addAll, ih hrest, hFind_addValues_ne a k ha vs hs]

theorem hFind_setAll_notin (k : String) (ops : List (String × List String))
    (hk : k ∉ ops.map Prod.fst) (hs : HeaderMap) :
    hFind (setAll hs ops) k = hFind hs k := by
  induction ops generalizing hs with
  | nil => simp [setAll]
  | cons p rest ih =>
    obtain ⟨a, vs⟩ := p
    have ha : a ≠ k := by
      intro h
      exact hk (by simp [h])
    have hrest : k ∉ rest.map Prod.fst := by
      intro h
      exact hk (by simp [h])
    rw [setAll, ih hrest, hFind_hSet_ne hs a k vs ha]

theorem hFind_eq_none_iff (hs : HeaderMap) (k : String) :
    hFind hs k = none ↔ ∀ p ∈ hs, p.1 ≠ k := by
  induction hs with
  | nil => simp [hFind]
  | cons p rest ih =>
    obtain ⟨a, vs⟩ := p
    by_cases hak : a = k
    · subst hak
      simp [hFind]
    · have : (a == k) = false := by simp [hak]
      simp [hFind, this, ih, hak]

theorem hFind_filterHo_excluded (hs : HeaderMap) (k : String)
    (hk : k = "Transfer-Encoding" ∨ k = "Connection") :
    hFind (filterHoHeaders hs) k = none := by
  induction hs with
  | nil => simp [filterHoHeaders, hFind]
  | cons p rest ih =>
    obtain ⟨a, vs⟩ := p
    by_cases hdrop : a = "Transfer-Encoding" ∨ a = "Connection"
    · have : (!(a == "Transfer-Encoding" || a == "Connection")) = false := by
        rcases hdrop with h | h <;> simp [h]
      simp only [filterHoHeaders, List.filter_cons, this, Bool.false_eq_true,
        if_false] at *
      exact ih
    · push_neg at hdrop
      have hkeep : (!(a == "Transfer-Encoding" || a == "Connection")) = true := by
        simp [hdrop.1, hdrop.2]
      have hak : (a == k) = false := by
        rcases hk with h | h <;> subst h <;> simp [hdrop.1, hdrop.2]
      simp only [filterHoHeaders, List.filter_cons, hkeep, if_pos] at *
      rw [hFind, hak]
      simp only [Bool.false_eq_true, if_false]
      exact ih

theorem hFind_filterHo_other (hs : HeaderMap) (k : String)
    (h1 : k ≠ "Transfer-Encoding") (h2 : k ≠ "Connection") :
    hFind (filterHoHeaders hs) k = hFind hs k := by
  induction hs with
  | nil => simp [filterHoHeaders]
  | cons p rest ih =>
    obtain ⟨a, vs⟩ := p
    by_cases hdrop : a = "Transfer-Encoding" ∨ a = "Connection"
    · have hflt : (!(a == "Transfer-Encoding" || a == "Connection")) = false := by
        rcases hdrop with h | h <;> simp [h]
      have hak : (a == k) = false := by
        rcases hdrop with h | h <;> subst h <;> simp
        · exact fun hh => h1 hh.symm
        · exact fun hh => h2 hh.symm
      simp only [filterHoHeaders, List.filter_cons, hflt, Bool.false_eq_true,
        if_false] at *
      rw [hFind, hak]
      simp only [Bool.false_eq_true, if_false]
      exact ih
    · push_neg at hdrop
      have hkeep : (!(a == "Transfer-Encoding" || a == "Connection")) = true := by
        simp [hdrop.1, hdrop.2]
      simp only [filterHoHeaders, List.filter_cons, hkeep, if_pos] at *
      rw [hFind, hFind]
      cases hak : (a == k)
      · simp only [Bool.false_eq_true, if_false]
        exact ih
      · simp

/-! ## Behaviour of the fall-through path -/

theorem fallThrough_spec (cfg : Config) (key cs : String)
    (jm : CacheData → List Nat) (next : NextBehavior) (se : Bool) :
    (fallThrough cfg key cs jm next se).nextInvoked = true
      ∧ (fallThrough cfg key cs jm next se).response.status = next.status
      ∧ (fallThrough cfg key cs jm next se).response.body = next.body
      ∧ (fallThrough cfg key cs jm next se).response.headers
          = setAll (if cfg.addStatusHeader then hSet [] cacheHeader [cs] else [])
              next.setHeaders := by
  cases h : cacheable cfg next.status <;>
    simp [fallThrough, h]

theorem fallThrough_status_header (cfg : Config) (key cs : String)
    (jm : CacheData → List Nat) (next : NextBehavior) (se : Bool)
    (ha : cfg.addStatusHeader = true)
    (hn : cacheHeader ∉ next.setHeaders.map Prod.fst) :
    hFind (fallThrough cfg key cs jm next se).response.headers cacheHeader
      = some [cs] := by
  rw [(fallThrough_spec cfg key cs jm next se).2.2.2, ha, if_pos rfl,
    hFind_setAll_notin cacheHeader next.setHeaders hn, hFind_hSet_self]

/-! ## Claims about the middleware layer (cache.go) -/

/-- C2: whenever the store's Get for the computed key fails (absent,
expired or corrupt record: `fetched = none`), or the fetched bytes fail
to unmarshal, `ServeHTTP` never fails the request: it invokes the next
handler, delivers the next handler's status and body, and — when
`AddStatusHeader` is set and the next handler does not itself overwrite
`Cache-Status` — reports a non-hit `Cache-Status` (`miss` or `error`). -/
theorem spec_C2 (cfg : Config) (r : Request) (fetched : Option (List Nat))
    (ju : List Nat → Option CacheData) (jm : CacheData → List Nat)
    (next : NextBehavior) (setErr : Bool)
    (hmatch : matchesPathPrefixes cfg r.urlPath = true)
    (hfail : fetched = none ∨ ∃ b, fetched = some b ∧ ju b = none) :
    (serveHTTP cfg r fetched ju jm next setErr).nextInvoked = true
      ∧ (serveHTTP cfg r fetched ju jm next setErr).response.status = next.status
      ∧ (serveHTTP cfg r fetched ju jm next setErr).response.body = next.body
      ∧ (cfg.addStatusHeader = true →
          cacheHeader ∉ next.setHeaders.map Prod.fst →
          (hFind (serveHTTP cfg r fetched ju jm next setErr).response.headers
              cacheHeader = some [cacheMissStatus]
            ∨ hFind (serveHTTP cfg r fetched ju jm next setErr).response.headers
              cacheHeader = some [cacheErrorStatus])) := by
  rcases hfail with rfl | ⟨b, rfl, hju⟩
  · have hred : serveHTTP cfg r none ju jm next setErr
        = fallThrough cfg (cacheKey r cfg.cacheHeaders) cacheMissStatus jm
            next setErr := by
      simp [serveHTTP, hmatch]
    have h := fallThrough_spec cfg (cacheKey r cfg.cacheHeaders)
      cacheMissStatus jm next setErr
    rw [hred]
    exact ⟨h.1, h.2.1, h.2.2.1, fun ha hn =>
      Or.inl (fallThrough_status_header cfg _ _ jm next setErr ha hn)⟩
  · have hred : serveHTTP cfg r (some b) ju jm next setErr
        = fallThrough cfg (cacheKey r cfg.cacheHeaders) cacheErrorStatus jm
            next setErr := by
      simp [serveHTTP, hmatch, hju]
    have h := fallThrough_spec cfg (cacheKey r cfg.cacheHeaders)
      cacheErrorStatus jm next setErr
    rw [hred]
    exact ⟨h.1, h.2.1, h.2.2.1, fun ha hn =>
      Or.inr (fallThrough_status_header cfg _ _ jm next setErr ha hn)⟩

/-- C4: a failing store Set only gets logged — the client-visible
response, whether next ran, and the attempted cache write are exactly as
if Set had succeeded. -/
theorem spec_C4 (cfg : Config) (r : Request) (fetched : Option (List Nat))
    (ju : List Nat → Option CacheData) (jm : CacheData → List Nat)
    (next : NextBehavior) :
    (serveHTTP cfg r fetched ju jm next true).response
        = (serveHTTP cfg r fetched ju jm next false).response
      ∧ (serveHTTP cfg r fetched ju jm next true).nextInvoked
        = (serveHTTP cfg r fetched ju jm next false).nextInvoked
      ∧ (serveHTTP cfg r fetched ju jm next true).setAttempt
        = (serveHTTP cfg r fetched ju jm next false).setAttempt
      ∧ ((serveHTTP cfg r fetched ju jm next true).setAttempt.isSome = true →
          (serveHTTP cfg r fetched ju jm next true).loggedSetError = true) := by
  by_cases hm : matchesPathPrefixes cfg r.urlPath
  · cases fetched with
    | none =>
      cases h : cacheable cfg next.status <;>
        simp [serveHTTP, fallThrough, hm, h]
    | some b =>
      cases hju : ju b with
      | some data => simp [serveHTTP, hm, hju]
      | none =>
        cases h : cacheable cfg next.status <;>
          simp [serveHTTP, fallThrough, hm, hju, h]
  · simp [serveHTTP, hm]

/-- C8: `cacheable` accepts exactly status 200 and then always yields
the expiry `MaxExpiry * time.Second`; on a store miss the middleware
attempts a cache write exactly when the next handler wrote 200, with
that expiry; the `Force` field never influences `ServeHTTP` at all, and
the next handler's response headers never influence whether or for how
long the response is cached. -/
theorem spec_C8 (cfg : Config) (r : Request)
    (ju : List Nat → Option CacheData) (jm : CacheData → List Nat)
    (next : NextBehavior) (setErr : Bool) (s : Nat)
    (hmatch : matchesPathPrefixes cfg r.urlPath = true) :
    ((cacheable cfg s).isSome = true ↔ s = 200)
      ∧ (∀ d, cacheable cfg s = some d → d = cfg.maxExpiry * 1000000000)
      ∧ ((serveHTTP cfg r none ju jm next setErr).setAttempt.isSome = true
          ↔ next.status = 200)
      ∧ (∀ k b ttl,
          (serveHTTP cfg r none ju jm next setErr).setAttempt = some (k, b, ttl) →
          ttl = cfg.maxExpiry * 1000000000)
      ∧ (∀ f, serveHTTP { cfg with force := f } r none ju jm next setErr
            = serveHTTP cfg r none ju jm next setErr)
      ∧ (∀ hs,
          ((serveHTTP cfg r none ju jm { next with setHeaders := hs } setErr).setAttempt.isSome
            = (serveHTTP cfg r none ju jm next setErr).setAttempt.isSome)
          ∧ ((serveHTTP cfg r none ju jm { next with setHeaders := hs } setErr).setAttempt.map
                (fun t => t.2.2)
              = (serveHTTP cfg r none ju jm next setErr).setAttempt.map
                (fun t => t.2.2))) := by
  by_cases h200 : next.status = 200
  · have hc : cacheable cfg next.status = some (cfg.maxExpiry * 1000000000) := by
      simp [cacheable, h200]
    have hc200 : cacheable cfg 200 = some (cfg.maxExpiry * 1000000000) := by
      simp [cacheable]
    refine ⟨?_, ?_, ?_, ?_, fun f => rfl, fun hs => ?_⟩
    · by_cases hs200 : s = 200 <;> simp [cacheable, hs200]
    · intro d hd
      by_cases hs200 : s = 200 <;> simp [cacheable, hs200] at hd
      omega
    · simp [serveHTTP, fallThrough, hmatch, hc, hc200, h200]
    · intro k b ttl hset
      simp [serveHTTP, fallThrough, hmatch, hc] at hset
      exact hset.2.2.symm
    · constructor <;> simp [serveHTTP, fallThrough, hmatch, hc, hc200]
  · have hc : cacheable cfg next.status = none := by
      simp [cacheable, h200]
    refine ⟨?_, ?_, ?_, ?_, fun f => rfl, fun hs => ?_⟩
    · by_cases hs200 : s = 200 <;> simp [cacheable, hs200]
    · intro d hd
      by_cases hs200 : s = 200 <;> simp [cacheable, hs200] at hd
      omega
    · simp [serveHTTP, fallThrough, hmatch, hc, h200]
    · intro k b ttl hset
      simp [serveHTTP, fallThrough, hmatch, hc] at hset
    · constructor <;> simp [serveHTTP, fallThrough, hmatch, hc]

/-- C9: every attempted cache write stores a header map that excludes
`Transfer-Encoding` and `Connection` and agrees with the client-visible
response headers on every other key; and on a cache hit whose stored
map excludes them, neither hop-by-hop header is replayed. -/
theorem spec_C9 (hs' : HeaderMap) (k : String)
    (cfg : Config) (r : Request) (b : List Nat)
    (ju : List Nat → Option CacheData) (jm : CacheData → List Nat)
    (next : NextBehavior) (setErr : Bool) (data : CacheData)
    (hju : ju b = some data)
    (hTE : hFind data.headers "Transfer-Encoding" = none)
    (hConn : hFind data.headers "Connection" = none) :
    hFind (filterHoHeaders hs') "Transfer-Encoding" = none
      ∧ hFind (filterHoHeaders hs') "Connection" = none
      ∧ (k ≠ "Transfer-Encoding" → k ≠ "Connection" →
          hFind (filterHoHeaders hs') k = hFind hs' k)
      ∧ (∀ key bytes ttl,
          (serveHTTP cfg r none ju jm next setErr).setAttempt
              = some (key, bytes, ttl) →
          ∃ d : CacheData, bytes = jm d
            ∧ hFind d.headers "Transfer-Encoding" = none
            ∧ hFind d.headers "Connection" = none
            ∧ ∀ k', k' ≠ "Transfer-Encoding" → k' ≠ "Connection" →
                hFind d.headers k'
                  = hFind (serveHTTP cfg r none ju jm next setErr).response.headers
                      k')
      ∧ (matchesPathPrefixes cfg r.urlPath = true →
          hFind (serveHTTP cfg r (some b) ju jm next setErr).response.headers
              "Transfer-Encoding" = none
            ∧ hFind (serveHTTP cfg r (some b) ju jm next setErr).response.headers
              "Connection" = none) := by
  refine ⟨hFind_filterHo_excluded hs' _ (Or.inl rfl),
    hFind_filterHo_excluded hs' _ (Or.inr rfl),
    fun h1 h2 => hFind_filterHo_other hs' k h1 h2, ?_, ?_⟩
  · intro key bytes ttl hset
    by_cases hm : matchesPathPrefixes cfg r.urlPath
    · cases hc : cacheable cfg next.status with
      | none => simp [serveHTTP, fallThrough, hm, hc] at hset
      | some expiry =>
        have hresp : (serveHTTP cfg r none ju jm next setErr).response.headers
            = setAll (if cfg.addStatusHeader then hSet [] cacheHeader
                [cacheMissStatus] else []) next.setHeaders := by
          simp [serveHTTP, fallThrough, hm, hc]
        simp only [serveHTTP, hm, Bool.not_true, Bool.false_eq_true, if_false,
          fallThrough, hc, Option.some.injEq, Prod.mk.injEq] at hset
        refine ⟨{ status := next.status,
                  headers := filterHoHeaders
                    (setAll (if cfg.addStatusHeader then hSet [] cacheHeader
                        [cacheMissStatus] else []) next.setHeaders),
                  body := next.body }, ?_, ?_, ?_, ?_⟩
        · exact hset.2.1.symm
        · exact hFind_filterHo_excluded _ _ (Or.inl rfl)
        · exact hFind_filterHo_excluded _ _ (Or.inr rfl)
        · intro k' h1 h2
          rw [hresp]
          exact hFind_filterHo_other _ k' h1 h2
    · simp [serveHTTP, hm] at hset
  · intro hm
    have hTEkeys := (hFind_eq_none_iff data.headers "Transfer-Encoding").mp hTE
    have hConnkeys := (hFind_eq_none_iff data.headers "Connection").mp hConn
    have hhit : (serveHTTP cfg r (some b) ju jm next setErr).response.headers
        = (if cfg.addStatusHeader then
            hSet (addAll [] data.headers) cacheHeader [cacheHitStatus]
          else addAll [] data.headers) := by
      simp [serveHTTP, hm, hju]
    rw [hhit]
    have hCS_TE : cacheHeader ≠ "Transfer-Encoding" := by decide
    have hCS_Conn : cacheHeader ≠ "Connection" := by decide
    constructor
    · cases ha : cfg.addStatusHeader <;> simp only [if_pos, if_false,
        Bool.false_eq_true]
      · rw [hFind_addAll_notkey _ data.headers hTEkeys []]
        rfl
      · rw [hFind_hSet_ne _ _ _ _ hCS_TE,
          hFind_addAll_notkey _ data.headers hTEkeys []]
        rfl
    · cases ha : cfg.addStatusHeader <;> simp only [if_pos, if_false,
        Bool.false_eq_true]
      · rw [hFind_addAll_notkey _ data.headers hConnkeys []]
        rfl
      · rw [hFind_hSet_ne _ _ _ _ hCS_Conn,
          hFind_addAll_notkey _ data.headers hConnkeys []]
        rfl

theorem cacheKeyStep_foldl_congr (r1 r2 : Request) :
    ∀ l : List String,
    (∀ h ∈ l,
      r1.headerGet (canonicalHeaderKey h) = r2.headerGet (canonicalHeaderKey h)) →
    ∀ acc, l.foldl (cacheKeyStep r1) acc = l.foldl (cacheKeyStep r2) acc := by
  intro l
  induction l with
  | nil =>
    intro _ acc
    rfl
  | cons h rest ih =>
    intro hg acc
    have hg0 : r1.headerGet (canonicalHeaderKey h)
        = r2.headerGet (canonicalHeaderKey h) := hg h (by simp)
    have hgrest : ∀ h ∈ rest,
        r1.headerGet (canonicalHeaderKey h) = r2.headerGet (canonicalHeaderKey h) :=
      fun h hh => hg h (by simp [hh])
    have hstep : cacheKeyStep r1 acc h = cacheKeyStep r2 acc h := by
      simp only [cacheKeyStep, hg0]
    rw [List.foldl_cons, List.foldl_cons, hstep]
    exact ih hgrest _

/-- C10: the cache key depends only on method, host, URL path and the
values of the configured (canonicalized) cache headers — two requests
agreeing there get the same key even when their query strings or any
other headers differ. -/
theorem spec_C10 (r1 r2 : Request) (cacheHeaders : List String)
    (hm : r1.method = r2.method) (hh : r1.host = r2.host)
    (hp : r1.urlPath = r2.urlPath)
    (hg : ∀ h ∈ cacheHeaders,
      r1.headerGet (canonicalHeaderKey h) = r2.headerGet (canonicalHeaderKey h)) :
    cacheKey r1 cacheHeaders = cacheKey r2 cacheHeaders := by
  rw [cacheKey, cacheKey, hm, hh, hp]
  exact cacheKeyStep_foldl_congr r1 r2 cacheHeaders hg _

/-! ## Concrete fixtures and witnesses for the middleware claims -/

/-- Sample config: defaults of `CreateConfig` with an empty path. -/
def cfgW : Config := ⟨"", 300, 300, true, false, [], []⟩

/-- Sample request. -/
def reqW : Request := ⟨"GET", "localhost", "/a", "", fun _ => ""⟩

/-- Sample next-handler behaviour: one header, status 200, body `H`. -/
def nextW : NextBehavior := ⟨[("Content-Type", ["text/plain"])], 200, [72]⟩

/-- Sample unmarshaller that always fails. -/
def juW : List Nat → Option CacheData := fun _ => none

/-- Sample marshaller. -/
def jmW : CacheData → List Nat := fun _ => []

/-- Sample cached entry. -/
def dataW : CacheData := ⟨200, [("Content-Type", ["text/plain"])], [72]⟩

/-- Sample unmarshaller that always yields `dataW`. -/
def juHitW : List Nat → Option CacheData := fun _ => some dataW

/-- First sample request for the cache-key claim. -/
def req1W : Request :=
  ⟨"GET", "h", "/p", "a=1", fun s => if s == "Accept-Language" then "en" else "x"⟩

/-- Second sample request: same method/host/path and Accept-Language,
different query and different other headers. -/
def req2W : Request :=
  ⟨"GET", "h", "/p", "b=2", fun s => if s == "Accept-Language" then "en" else "y"⟩

/-- Witness for C2 on a store miss with the sample fixtures. -/
theorem spec_C2_witness :
    matchesPathPrefixes cfgW reqW.urlPath = true
      ∧ (serveHTTP cfgW reqW none juW jmW nextW false).nextInvoked = true :=
  ⟨rfl, (spec_C2 cfgW reqW none juW jmW nextW false rfl (Or.inl rfl)).1⟩

/-- Witness for C4: with the sample fixtures a cache write is attempted
and its failure is logged while the response is unaffected. -/
theorem spec_C4_witness :
    (serveHTTP cfgW reqW none juW jmW nextW true).setAttempt.isSome = true
      ∧ (serveHTTP cfgW reqW none juW jmW nextW true).loggedSetError = true
      ∧ (serveHTTP cfgW reqW none juW jmW nextW true).response
        = (serveHTTP cfgW reqW none juW jmW nextW false).response := by
  have h := spec_C4 cfgW reqW none juW jmW nextW
  have hsome : (serveHTTP cfgW reqW none juW jmW nextW true).setAttempt.isSome
      = true := by decide
  exact ⟨hsome, h.2.2.2 hsome, h.1⟩

/-- Witness for C8 with the sample fixtures. -/
theorem spec_C8_witness :
    matchesPathPrefixes cfgW reqW.urlPath = true
      ∧ ((cacheable cfgW 200).isSome = true ↔ (200 : Nat) = 200)
      ∧ ((serveHTTP cfgW reqW none juW jmW nextW false).setAttempt.isSome = true
          ↔ nextW.status = 200) :=
  ⟨rfl, (spec_C8 cfgW reqW juW jmW nextW false 200 rfl).1,
    (spec_C8 cfgW reqW juW jmW nextW false 200 rfl).2.2.1⟩

/-- Witness for C9: the filter drops `Transfer-Encoding` on a concrete
map and a concrete cache hit does not replay it. -/
theorem spec_C9_witness :
    juHitW [0] = some dataW
      ∧ hFind dataW.headers "Transfer-Encoding" = none
      ∧ hFind dataW.headers "Connection" = none
      ∧ hFind (filterHoHeaders [("Transfer-Encoding", ["chunked"]),
          ("Content-Type", ["text/plain"])]) "Transfer-Encoding" = none
      ∧ hFind (serveHTTP cfgW reqW (some [0]) juHitW jmW nextW false).response.headers
          "Transfer-Encoding" = none := by
  have h := spec_C9
    [("Transfer-Encoding", ["chunked"]), ("Content-Type", ["text/plain"])]
    "Content-Type" cfgW reqW [0] juHitW jmW nextW false dataW rfl
    (by decide) (by decide)
  exact ⟨rfl, by decide, by decide, h.1, (h.2.2.2.2 rfl).1⟩

/-- Witness for C10: same method/host/path and configured header value
but different query strings and different other headers give the same
cache key. -/
theorem spec_C10_witness :
    req1W.urlQuery ≠ req2W.urlQuery
      ∧ req1W.headerGet "X-Other" ≠ req2W.headerGet "X-Other"
      ∧ cacheKey req1W ["accept-language"] = cacheKey req2W ["accept-language"] :=
  ⟨by decide, by decide,
    spec_C10 req1W req2W ["accept-language"] rfl rfl rfl (by decide)⟩

end SimpleCache
